import Mathlib

/-!
Shallow embedding of the PicoFabric bitstream programmer
(`sw/programmer/program.py`): the frame codec, the protocol codec, the
command transport, the programming state machine and the discovery
service, together with theorems checking the specification's claims
about them.  Python byte strings are modelled as `List Nat` (each entry
a byte value), Python exceptions as `Except String`, and a serial read
that can time out as a `List Nat` of the bytes the channel will yield
(an exhausted list is a timeout).
-/

namespace PicoFabric

/-! ## Bit-arithmetic helpers

The source manipulates bytes with `&`, `|`, `<<` and `>>`; these lemmas
relate those operators to `%` and `/` so that `omega` can finish the
arithmetic.
-/

theorem and_ff_eq_mod (v : Nat) : v &&& 0xff = v % 256 :=
  Nat.and_pow_two_sub_one_eq_mod v 8

theorem shiftRight_and_mask (v k : Nat) :
    (v &&& ((0xff : Nat) <<< k)) >>> k = v / 2 ^ k % 256 := by
  have h2 : (v &&& ((0xff : Nat) <<< k)) >>> k = (v >>> k) &&& 0xff := by
    apply Nat.eq_of_testBit_eq
    intro i
    simp only [Nat.testBit_shiftRight, Nat.testBit_and, Nat.testBit_shiftLeft]
    have e1 : k + i - k = i := by omega
    have e2 : k ≤ k + i := Nat.le_add_right k i
    simp [e1, e2]
  rw [h2, Nat.shiftRight_eq_div_pow, and_ff_eq_mod]

theorem shiftRight_and_ff00 (v : Nat) : (v &&& 0xff00) >>> 8 = v / 256 % 256 := by
  rw [show (0xff00 : Nat) = (0xff : Nat) <<< 8 from rfl, shiftRight_and_mask]
  norm_num

/-- Low bits and shifted high bits recombine additively. -/
theorem lor_shiftLeft_eq_add (x y k : Nat) (hx : x < 2 ^ k) :
    x ||| (y <<< k) = x + y * 2 ^ k := by
  have h := Nat.mul_add_lt_is_or (i := k) hx y
  rw [Nat.shiftLeft_eq, Nat.lor_comm, Nat.mul_comm y (2 ^ k), ← h]
  omega

/-! ## Protocol codec: `FEncoding` (little-endian integer layouts) -/

namespace FEncoding

/-- `getInt32`: little-endian 32-bit read at `offset`
(`data[o] << 0 | data[o+1] << 8 | data[o+2] << 16 | data[o+3] << 24`). -/
def getInt32 (data : List Nat) (offset : Nat) : Nat :=
  (data.getD (offset + 0) 0 <<< 0) ||| (data.getD (offset + 1) 0 <<< 8) |||
    (data.getD (offset + 2) 0 <<< 16) ||| (data.getD (offset + 3) 0 <<< 24)

/-- `decodeInt16`: little-endian 16-bit read at `offset`. -/
def decodeInt16 (data : List Nat) (offset : Nat) : Nat :=
  (data.getD (offset + 0) 0 <<< 0) ||| (data.getD (offset + 1) 0 <<< 8)

/-- `encodeInt32`: little-endian 32-bit byte layout. -/
def encodeInt32 (value : Nat) : List Nat :=
  [(value &&& 0xff) >>> 0, (value &&& 0xff00) >>> 8,
   (value &&& 0xff0000) >>> 16, (value &&& 0xff000000) >>> 24]

/-- `encodeInt16`: little-endian 16-bit byte layout. -/
def encodeInt16 (value : Nat) : List Nat :=
  [(value &&& 0xff) >>> 0, (value &&& 0xff00) >>> 8]

theorem encodeInt16_eq (v : Nat) : encodeInt16 v = [v % 256, v / 256 % 256] := by
  simp [encodeInt16, and_ff_eq_mod, shiftRight_and_ff00]

theorem encodeInt32_eq (v : Nat) :
    encodeInt32 v = [v % 256, v / 256 % 256, v / 65536 % 256, v / 16777216 % 256] := by
  have h16 : (v &&& 0xff0000) >>> 16 = v / 65536 % 256 := by
    have := shiftRight_and_mask v 16; norm_num at this ⊢; exact this
  have h24 : (v &&& 0xff000000) >>> 24 = v / 16777216 % 256 := by
    have := shiftRight_and_mask v 24; norm_num at this ⊢; exact this
  simp [encodeInt32, and_ff_eq_mod, shiftRight_and_ff00, h16, h24]

theorem decodeInt16_encodeInt16 (v : Nat) (hv : v < 2 ^ 16) :
    decodeInt16 (encodeInt16 v) 0 = v := by
  rw [encodeInt16_eq]
  show (v % 256) <<< 0 ||| (v / 256 % 256) <<< 8 = v
  rw [Nat.shiftLeft_zero, lor_shiftLeft_eq_add _ _ 8 (by omega)]
  omega

theorem getInt32_encodeInt32 (v : Nat) (hv : v < 2 ^ 32) :
    getInt32 (encodeInt32 v) 0 = v := by
  rw [encodeInt32_eq]
  show (v % 256) <<< 0 ||| (v / 256 % 256) <<< 8 ||| (v / 65536 % 256) <<< 16 |||
      (v / 16777216 % 256) <<< 24 = v
  rw [Nat.shiftLeft_zero,
    lor_shiftLeft_eq_add _ _ 8 (by omega),
    lor_shiftLeft_eq_add _ _ 16 (by omega),
    lor_shiftLeft_eq_add _ _ 24 (by omega)]
  omega

end FEncoding

/-! ## Frame codec (`USBSerialTransport.writeBlock` / `readBlock`) -/

namespace FabricTransport

def HeaderMagic : Nat := 0x1b

def MaxWriteBlockSize : Nat := 0xffff - 16

end FabricTransport

/-- The additive 8-bit checksum the source computes while streaming:
the sum of the bytes, masked by `& 0xff` at the end. -/
def checksum8 (data : List Nat) : Nat :=
  (data.foldl (fun a b => a + b) 0) &&& 0xff

namespace USBSerialTransport

/-- `writeBlock(ser, data)`: emits the magic byte, a little-endian 16-bit
length equal to `len(data)+1` (payload plus trailing checksum byte), the
payload bytes, then the additive checksum of the payload.  A payload of
length `>= MaxWriteBlockSize` raises "Max packet size" (`none`). -/
def writeBlock (data : List Nat) : Option (List Nat) :=
  if FabricTransport.MaxWriteBlockSize ≤ data.length then none
  else some ([FabricTransport.HeaderMagic] ++ FEncoding.encodeInt16 (data.length + 1)
    ++ data ++ [checksum8 data])

/-- `readBlock(ser)`: reads the magic byte (mismatch is an assertion
failure), a 16-bit length `sz`, then `sz` bytes, checking the additive
checksum of the first `sz-1` bytes against the last.  A stream that runs
out of bytes is a timeout (`.ok none`); a checksum mismatch raises. -/
def readBlock (stream : List Nat) : Except String (Option (List Nat)) :=
  match stream with
  | [] => .ok none
  | magic :: rest =>
    if magic = FabricTransport.HeaderMagic then
      match rest with
      | b0 :: b1 :: rest2 =>
        let sz := FEncoding.decodeInt16 [b0, b1] 0
        if rest2.length < sz then .ok none
        else
          let data := rest2.take sz
          match data.getLast? with
          | none => .error "IndexError"
          | some lastByte =>
            if lastByte &&& 0xff = checksum8 (data.take (sz - 1)) then
              .ok (some (data.take (data.length - 1)))
            else .error "Crc fail"
      | _ => .ok none
    else .error "assert magic"

end USBSerialTransport

theorem checksum8_and_ff (l : List Nat) : checksum8 l &&& 0xff = checksum8 l := by
  unfold checksum8
  rw [Nat.and_assoc, show (0xff : Nat) &&& 0xff = 0xff from rfl]

/-- A frame produced by `writeBlock` is decoded back to its payload by
`readBlock`. -/
theorem readBlock_writeBlock (payload frame : List Nat)
    (hw : USBSerialTransport.writeBlock payload = some frame) :
    USBSerialTransport.readBlock frame = .ok (some payload) := by
  unfold USBSerialTransport.writeBlock at hw
  by_cases hlen : FabricTransport.MaxWriteBlockSize ≤ payload.length
  · simp [hlen] at hw
  · simp only [if_neg hlen, Option.some.injEq] at hw
    subst hw
    have hL : payload.length + 1 < 2 ^ 16 := by
      unfold FabricTransport.MaxWriteBlockSize at hlen; omega
    have hdec : FEncoding.decodeInt16
        [(payload.length + 1) % 256, (payload.length + 1) / 256 % 256] 0
          = payload.length + 1 := by
      have h := FEncoding.decodeInt16_encodeInt16 (payload.length + 1) hL
      rwa [FEncoding.encodeInt16_eq] at h
    rw [FEncoding.encodeInt16_eq]
    show USBSerialTransport.readBlock
      (FabricTransport.HeaderMagic :: (payload.length + 1) % 256 ::
        (payload.length + 1) / 256 % 256 :: (payload ++ [checksum8 payload]))
      = .ok (some payload)
    unfold USBSerialTransport.readBlock
    simp only [if_pos rfl, hdec, if_true]
    rw [List.take_of_length_le (by simp)]
    rw [if_neg (by simp)]
    rw [List.getLast?_concat]
    have htake : (payload ++ [checksum8 payload]).take (payload.length + 1 - 1)
        = payload := by
      simp
    rw [htake]
    simp [checksum8_and_ff payload, htake]

/-- C2 (corrected): for every payload whose length is strictly below
`MaxWriteBlockSize = 0xFFFF − 16` and whose entries are byte values,
writing the payload as a frame and reading the frame back returns
exactly the original payload.  (The claim's bound "`0xFFFF − 16`
inclusive" fails: `writeBlock` rejects a payload of exactly that length,
see the counterexample.) -/
theorem frame_roundtrip (payload : List Nat)
    (hlen : payload.length < FabricTransport.MaxWriteBlockSize)
    (hbytes : ∀ b ∈ payload, b < 256) :
    ∃ frame, USBSerialTransport.writeBlock payload = some frame ∧
      USBSerialTransport.readBlock frame = .ok (some payload) := by
  have hw : USBSerialTransport.writeBlock payload
      = some ([FabricTransport.HeaderMagic]
          ++ FEncoding.encodeInt16 (payload.length + 1)
          ++ payload ++ [checksum8 payload]) := by
    unfold USBSerialTransport.writeBlock
    rw [if_neg (Nat.not_le.mpr hlen)]
  exact ⟨_, hw, readBlock_writeBlock _ _ hw⟩

/-- C2 (counterexample): a payload of length exactly `0xFFFF − 16`,
which the claim includes in the round-trippable range, is rejected by
`writeBlock` ("Max packet size"), so no frame is produced for it at all. -/
theorem frame_roundtrip_counterexample :
    USBSerialTransport.writeBlock (List.replicate (0xffff - 16) 0) = none := by
  have h : FabricTransport.MaxWriteBlockSize
      ≤ (List.replicate (0xffff - 16) (0 : Nat)).length := by
    rw [List.length_replicate]
    exact Nat.le_refl _
  unfold USBSerialTransport.writeBlock
  rw [if_pos h]

/-- C2 (witness): the round-trip theorem applied to the payload `[5, 250]`. -/
theorem frame_roundtrip_witness :
    ([5, 250] : List Nat).length < FabricTransport.MaxWriteBlockSize ∧
      (∀ b ∈ ([5, 250] : List Nat), b < 256) ∧
      ∃ frame, USBSerialTransport.writeBlock [5, 250] = some frame ∧
        USBSerialTransport.readBlock frame = .ok (some [5, 250]) :=
  ⟨by decide, by decide, frame_roundtrip [5, 250] (by decide) (by decide)⟩

/-! ## Device info and the query pipeline -/

/-- `DeviceStatus` string constants, as an enumeration. -/
inductive DeviceStatus where
  | Unkown
  | StatusNoResponse
  | StatusExistsAndValid
deriving DecidableEq, Repr

/-- `FabricDeviceInfo`: status, fpga device id, connection uri, pico uid. -/
structure FabricDeviceInfo where
  status : DeviceStatus
  fpgaDeviceId : Nat
  uri : String
  uid : String
deriving DecidableEq, Repr

/-- Python's `hex(i)[2:]` for a non-negative `i`: the lowercase
hexadecimal digits of `i`, with no zero padding (`hex(1)[2:] = "1"`,
not `"01"`). -/
def pyHex (n : Nat) : String :=
  String.mk (Nat.toDigits 16 n)

/-- `FQueryDevicePacket_Response` field values. -/
structure FQueryDevicePacket_Response where
  deviceState : Nat
  fpgaDeviceId : Nat
  progDeviceId : List Nat
deriving DecidableEq, Repr

/-- `FQueryDevicePacket_Response.fromBytes`: `deviceState` at offset 0,
`fpgaDeviceId` as a little-endian u32 at offset 1, then the 8 id bytes
at offsets 5..12 (`data[i + 1 + 4]` for `i in range(8)`).  Indexing a
response shorter than 13 bytes raises `IndexError` (`none`). -/
def FQueryDevicePacket_Response.fromBytes (data : List Nat) :
    Option FQueryDevicePacket_Response :=
  if 13 ≤ data.length then
    some { deviceState := data.getD 0 0
           fpgaDeviceId := FEncoding.getInt32 data 1
           progDeviceId := (List.range 8).map fun i => data.getD (i + 1 + 4) 0 }
  else none

namespace USBSerialTransport

/-- `readPacket`: reads a block and splits it as
`(cmd, counter, data[2:])`; a timeout or a block shorter than 2 bytes
yields `(None, None, None)` (modelled `.ok none`). -/
def readPacket (stream : List Nat) :
    Except String (Option (Nat × Nat × List Nat)) :=
  match readBlock stream with
  | .error e => .error e
  | .ok none => .ok none
  | .ok (some data) =>
    if 2 ≤ data.length then .ok (some (data.getD 0 0, data.getD 1 0, data.drop 2))
    else .ok none

end USBSerialTransport

namespace FabricTransport

/-- `USBSerialTransport.readCommand` specialised to the QueryDevice
response class: `readPacket`, then `raise Exception("No response")` when
the payload rest is falsy (`None` or empty), then
`responseClass().fromBytes(rdata)`. -/
def readCommandQuery (stream : List Nat) :
    Except String FQueryDevicePacket_Response :=
  match USBSerialTransport.readPacket stream with
  | .error e => .error e
  | .ok none => .error "No response"
  | .ok (some (_rcmd, _rcnt, rdata)) =>
    if rdata = [] then .error "No response"
    else
      match FQueryDevicePacket_Response.fromBytes rdata with
      | none => .error "IndexError"
      | some resp => .ok resp

/-- `FabricTransport.queryDevice`: sends a QueryDevice command and turns
the decoded response into a `FabricDeviceInfo`: `deviceState == 1` maps
to `StatusExistsAndValid` (anything else stays `Unkown`), the fpga
device id is copied, and the uid accumulates `hex(i)[2:]` over the 8 id
bytes.  `stream` is the byte sequence the serial port yields after the
command is written. -/
def queryDevice (uri : String) (stream : List Nat) :
    Except String (Option FabricDeviceInfo) :=
  match readCommandQuery stream with
  | .error e => .error e
  | .ok response =>
    .ok (some
      { status := if response.deviceState = 1 then DeviceStatus.StatusExistsAndValid
                  else DeviceStatus.Unkown
        fpgaDeviceId := response.fpgaDeviceId
        uri := uri
        uid := response.progDeviceId.foldl (fun acc i => acc ++ pyHex i) "" })

end FabricTransport

/-- Python's `uri.split('://')` on the character list: splits at every
occurrence of the three-character separator. -/
def splitSep : List Char → List (List Char)
  | ':' :: '/' :: '/' :: rest => [] :: splitSep rest
  | c :: rest =>
    match splitSep rest with
    | [] => [[c]]
    | a :: as => (c :: a) :: as
  | [] => [[]]

namespace FabricService

/-- `FabricService.queryDevice`: builds a transport for the uri
(`proto, port = uri.split('://')`; only the `usbserial` scheme yields a
transport, anything else returns `None`) and runs the transport's
`queryDevice`.  A split that does not produce exactly two parts raises
`ValueError`. -/
def queryDevice (uri : String) (stream : List Nat) :
    Except String (Option FabricDeviceInfo) :=
  match splitSep uri.data with
  | [proto, _port] =>
    if proto = "usbserial".data then FabricTransport.queryDevice uri stream
    else .ok none
  | _ => .error "ValueError"

end FabricService

/-- C3 (counterexample): on a channel that never yields a byte, the
claim expects `queryDevice` to return a no-device `None`; instead the
call raises the "No response" exception (`readCommand`'s
`raise Exception("No response")` propagates uncaught through
`FabricTransport.queryDevice` and `FabricService.queryDevice`). -/
theorem query_timeout_counterexample :
    FabricService.queryDevice "usbserial://sim" [] = .error "No response" ∧
      FabricService.queryDevice "usbserial://sim" []
        ≠ .ok (none : Option FabricDeviceInfo) := by
  refine ⟨rfl, fun h => ?_⟩
  rw [show FabricService.queryDevice "usbserial://sim" []
      = .error "No response" from rfl] at h
  exact Except.noConfusion h

/-- C3 (corrected): a `queryDevice` call on a channel that yields no
bytes terminates with the "No response" error — it neither hangs nor
returns a device; `listDevices`' exhaustive pass catches this exception
and treats the URI as having no device (see the discovery model). -/
theorem query_timeout_raises (uri : String) (port : List Char)
    (hsplit : splitSep uri.data = ["usbserial".data, port]) :
    FabricService.queryDevice uri [] = .error "No response" := by
  unfold FabricService.queryDevice
  rw [hsplit]
  rfl

/-- C3 (witness): the no-response theorem applied to the uri
`usbserial://sim`. -/
theorem query_timeout_raises_witness :
    splitSep ("usbserial://sim" : String).data = ["usbserial".data, "sim".data] ∧
      FabricService.queryDevice "usbserial://sim" [] = .error "No response" :=
  ⟨rfl, query_timeout_raises "usbserial://sim" "sim".data rfl⟩

/-- C1 (counterexample): a device reporting `deviceState=1`,
`fpgaDeviceId=0x1234` and id bytes `[1,2,3,4,5,6,7,8]` (the frame below
is the `writeBlock` encoding of that response) yields
`uid = "12345678"`, not the two-digit-per-byte `"0102030405060708"` the
claim expects: `hex(i)[2:]` drops the leading zero of every byte below
0x10. -/
theorem query_uid_counterexample :
    FabricTransport.queryDevice "usbserial://sim"
        [27, 16, 0, 129, 1, 1, 52, 18, 0, 0, 1, 2, 3, 4, 5, 6, 7, 8, 237]
      = .ok (some { status := DeviceStatus.StatusExistsAndValid,
                    fpgaDeviceId := 0x1234, uri := "usbserial://sim",
                    uid := "12345678" }) ∧
      ("12345678" : String) ≠ "0102030405060708" :=
  ⟨rfl, by decide⟩

/-- C1 (corrected): for every response frame carrying `deviceState=1`,
an fpga device id and 8 identifier bytes, `queryDevice` returns a
`DeviceInfo` whose status is `StatusExistsAndValid`, whose
`fpgaDeviceId` equals the reported value and whose uid is the
concatenation, in order and without separators, of `hex(i)[2:]` for
each id byte — lowercase hex *without* zero padding (so leading zeros
of each byte are stripped). -/
theorem query_valid_device (uri : String) (rcmd rcnt fpga : Nat)
    (i0 i1 i2 i3 i4 i5 i6 i7 : Nat) (frame : List Nat)
    (hfpga : fpga < 2 ^ 32)
    (hframe : USBSerialTransport.writeBlock
        (rcmd :: rcnt :: 1 :: (FEncoding.encodeInt32 fpga ++ [i0,i1,i2,i3,i4,i5,i6,i7]))
        = some frame) :
    FabricTransport.queryDevice uri frame
      = .ok (some { status := DeviceStatus.StatusExistsAndValid,
                    fpgaDeviceId := fpga, uri := uri,
                    uid := ([i0,i1,i2,i3,i4,i5,i6,i7] : List Nat).foldl
                      (fun acc i => acc ++ pyHex i) "" }) := by
  have hrb := readBlock_writeBlock _ _ hframe
  have hfp : FEncoding.getInt32
      (1 :: (FEncoding.encodeInt32 fpga ++ [i0,i1,i2,i3,i4,i5,i6,i7])) 1 = fpga := by
    have h0 : FEncoding.getInt32
        (1 :: (FEncoding.encodeInt32 fpga ++ [i0,i1,i2,i3,i4,i5,i6,i7])) 1
        = FEncoding.getInt32 (FEncoding.encodeInt32 fpga) 0 := rfl
    rw [h0, FEncoding.getInt32_encodeInt32 fpga hfpga]
  unfold FabricTransport.queryDevice FabricTransport.readCommandQuery
    USBSerialTransport.readPacket
  rw [hrb]
  show (Except.ok (some
      { status := DeviceStatus.StatusExistsAndValid
        fpgaDeviceId := FEncoding.getInt32
          (1 :: (FEncoding.encodeInt32 fpga ++ [i0,i1,i2,i3,i4,i5,i6,i7])) 1
        uri := uri
        uid := ([i0,i1,i2,i3,i4,i5,i6,i7] : List Nat).foldl
          (fun acc i => acc ++ pyHex i) "" }) : Except String (Option FabricDeviceInfo))
    = Except.ok (some
      { status := DeviceStatus.StatusExistsAndValid
        fpgaDeviceId := fpga
        uri := uri
        uid := ([i0,i1,i2,i3,i4,i5,i6,i7] : List Nat).foldl
          (fun acc i => acc ++ pyHex i) "" })
  rw [hfp]

/-- C1 (witness): the corrected query theorem applied to a concrete
response frame (`fpgaDeviceId = 0x1234`, id bytes `[0,255,1,2,3,4,5,6]`). -/
theorem query_valid_device_witness :
    FabricTransport.queryDevice "usbserial://dev"
        ((USBSerialTransport.writeBlock (0x81 :: 2 :: 1 ::
          (FEncoding.encodeInt32 0x1234 ++ [0,255,1,2,3,4,5,6]))).getD [])
      = .ok (some { status := DeviceStatus.StatusExistsAndValid,
                    fpgaDeviceId := 0x1234, uri := "usbserial://dev",
                    uid := ([0,255,1,2,3,4,5,6] : List Nat).foldl
                      (fun acc i => acc ++ pyHex i) "" }) :=
  query_valid_device "usbserial://dev" 0x81 2 0x1234 0 255 1 2 3 4 5 6 _
    (by decide) rfl

/-! ## The message counter (`_adduint8` and `writeCommand`) -/

/-- `_adduint8(a, b)`: add and wrap; note the source writes
`(res % 0xff) - 1` (modulo 255, then minus one) for the overflowing
case, which maps 256 to 0.  Modelled on `Int` so that Python's
semantics of `%` and `-` are kept exactly. -/
def _adduint8 (a b : Int) : Int :=
  let res := a + b
  if res > 0xff then res % 0xff - 1 else res

/-- The successive values of the transport's 8-bit message counter:
each `writeCommand` first advances `s.counter = _adduint8(s.counter, 1)`
and then uses the new value as the command's counter byte, so
`counterStream c n` is the list of counter bytes carried by the next
`n` commands after the counter holds `c`. -/
def counterStream (c : Int) : Nat → List Int
  | 0 => []
  | n + 1 =>
    let c1 := _adduint8 c 1
    c1 :: counterStream c1 n

set_option maxRecDepth 100000 in
/-- C6 (confirmed): starting from counter 0, the 256 consecutive
commands carry the counter bytes `1, 2, ..., 255, 0`: a permutation of
`0..255` (every value exactly once before any repeat), with the 256th
command's counter equal to 0; and each `writeCommand` advances the
counter by exactly one modulo 256 (255 wraps to 0). -/
theorem counter_wraparound :
    counterStream 0 256 = (List.range 256).map (fun k => ((k : Int) + 1) % 256) ∧
      (counterStream 0 256).Nodup ∧
      List.Perm (counterStream 0 256) ((List.range 256).map (fun k => (k : Int))) ∧
      (counterStream 0 256).getLast? = some 0 ∧
      (∀ c : Int, 0 ≤ c → c ≤ 255 → _adduint8 c 1 = (c + 1) % 256) := by
  refine ⟨by decide, by decide, by decide, by decide, fun c h0 h255 => ?_⟩
  show (if c + 1 > 255 then (c + 1) % 255 - 1 else c + 1) = (c + 1) % 256
  split
  · omega
  · omega


/-! ## Block compression (`compressData` / `decompressData`) -/

/-- `compressData(data)`: a 2-byte big-endian header holding the
uncompressed size (`(sz & 0xff00) >> 8` then `(sz & 0xff) >> 0` —
opposite endianness from the frame length), followed by the compressed
bytes.  The compressor itself is `zlib.compress(·, level=9)`, a
DEFLATE-family library external to the repository, so it is a
parameter. -/
def compressData (compress : List Nat → List Nat) (data : List Nat) : List Nat :=
  let sz := data.length
  let szBytes := [(sz &&& 0xff00) >>> 8, (sz &&& 0xff) >>> 0]
  szBytes ++ compress data

/-- `decompressData(data)`: reads the informational 2-byte big-endian
size (`data[0] << 8 | data[1]`), then decompresses `data[2:]`
(`zlib.decompress`, the parameter); indexing a buffer shorter than two
bytes raises `IndexError` (`none`). -/
def decompressData (decompress : List Nat → Option (List Nat)) (data : List Nat) :
    Option (List Nat) :=
  match data with
  | b0 :: b1 :: rest =>
    let _sz := (b0 <<< 8) ||| b1
    decompress rest
  | _ => none

/-- C7 (confirmed): for every block whose size fits the 16-bit header,
the compression step produces the 2-byte big-endian size header (the
two header bytes are `size / 256` and `size % 256`, so they decode
big-endian to the uncompressed size) followed by the compressed bytes,
and decompressing the output — which strips the 2-byte header — yields
exactly the original raw block, for any compressor/decompressor pair
that is lossless (`zlib.compress` level 9 / `zlib.decompress` is
modelled abstractly by the hypothesis `hinv`). -/
theorem compress_roundtrip
    (compress : List Nat → List Nat) (decompress : List Nat → Option (List Nat))
    (hinv : ∀ x, decompress (compress x) = some x)
    (data : List Nat) (hsz : data.length < 2 ^ 16) :
    compressData compress data
        = [data.length / 256, data.length % 256] ++ compress data ∧
      ((compressData compress data).getD 0 0) <<< 8 |||
          (compressData compress data).getD 1 0 = data.length ∧
      decompressData decompress (compressData compress data) = some data := by
  have h0 : (data.length &&& 0xff00) >>> 8 = data.length / 256 := by
    rw [shiftRight_and_ff00]
    omega
  have h1 : (data.length &&& 0xff) >>> 0 = data.length % 256 := by
    rw [Nat.shiftRight_zero, and_ff_eq_mod]
  refine ⟨?_, ?_, ?_⟩
  · show [(data.length &&& 0xff00) >>> 8, (data.length &&& 0xff) >>> 0]
        ++ compress data = _
    rw [h0, h1]
  · show ((data.length &&& 0xff00) >>> 8) <<< 8 ||| ((data.length &&& 0xff) >>> 0)
        = data.length
    rw [h0, h1, Nat.lor_comm, lor_shiftLeft_eq_add _ _ 8 (by omega)]
    omega
  · exact hinv data

/-- C7 (witness): the round-trip theorem at the identity codec (which
is lossless) and the block `[7, 8]`. -/
theorem compress_roundtrip_witness :
    (∀ x : List Nat, (fun y : List Nat => some y) ((fun y : List Nat => y) x) = some x) ∧
      ([7, 8] : List Nat).length < 2 ^ 16 ∧
      (compressData (fun y : List Nat => y) [7, 8]
          = [([7, 8] : List Nat).length / 256, ([7, 8] : List Nat).length % 256]
            ++ (fun y : List Nat => y) [7, 8] ∧
        ((compressData (fun y : List Nat => y) [7, 8]).getD 0 0) <<< 8 |||
            (compressData (fun y : List Nat => y) [7, 8]).getD 1 0
          = ([7, 8] : List Nat).length ∧
        decompressData (fun y : List Nat => some y)
            (compressData (fun y : List Nat => y) [7, 8]) = some [7, 8]) :=
  ⟨fun _ => rfl, by decide,
    compress_roundtrip (fun y => y) (fun y => some y) (fun _ => rfl) [7, 8] (by decide)⟩

/-! ## Programming state machine (`FabricTransport.programDevice`) -/

/-- One observable event of a `programDevice` run: the protocol
commands it writes and the progress lines it logs.  `cmdProgramBlock`
carries the wire fields of `FQueryProgramBlock` and additionally
records `raw`, the slice of the bitstream the command was built from. -/
inductive PDEvent where
  | cmdProgramDevice (saveToFlash totalSize blockCount bitstreamCrc : Nat)
  | cmdProgramBlock (blockId compressedBlockSz blockSz blockCrc : Nat)
      (bitStreamBlock raw : List Nat)
  | cmdProgramComplete
  | progress (bytesSent totalBytes : Nat)
deriving DecidableEq, Repr

/-- The block-writing loop of `programDevice`: starting at offset `i`
with the current (reassigned each iteration) `blockSz`, slice
`bitstreamData[i : i + blockSz]`; an empty slice ends the loop.
Otherwise: set `blockSz = len(block)`, compute the additive 8-bit block
checksum, compress the block, log the progress line `Chunk i / sz`,
send ProgramBlock, abort with the device's code when the response's
error code is nonzero (`errs k` is the error code answering the run's
`k`-th command, counting from 0 at the initial ProgramDevice), else
continue at `i + blockSz`.  Returns the events in order, and either the
aborting error code or the next command index. -/
def programLoop (bitstreamData : List Nat) (sz : Nat) (errs : Nat → Nat)
    (compress : List Nat → List Nat) :
    Nat → Nat → Nat → Nat → List PDEvent × Except Nat Nat
  | i, blockSz, blockId, cmdIdx =>
    if hblock : (bitstreamData.drop i).take blockSz = [] then ([], .ok cmdIdx)
    else
      let block := (bitstreamData.drop i).take blockSz
      let blockSz' := block.length
      let blockCrc := (block.foldl (fun a b => a + b) 0) &&& 0xff
      let compressedBlock := compressData compress block
      let evs := [PDEvent.progress i sz,
        PDEvent.cmdProgramBlock blockId compressedBlock.length block.length blockCrc
          compressedBlock block]
      if errs cmdIdx ≠ 0 then (evs, .error (errs cmdIdx))
      else
        let rest := programLoop bitstreamData sz errs compress
          (i + blockSz') blockSz' (blockId + 1) (cmdIdx + 1)
        (evs ++ rest.1, rest.2)
  termination_by i _ _ _ => bitstreamData.length - i
  decreasing_by
    have h1 : bitstreamData.drop i ≠ [] := by
      intro h
      apply hblock
      simp [h]
    have h2 : i < bitstreamData.length := by
      by_contra h
      exact h1 (List.drop_eq_nil_of_le (by omega))
    have h3 : 1 ≤ ((bitstreamData.drop i).take blockSz).length := by
      cases hb : (bitstreamData.drop i).take blockSz with
      | nil => exact absurd hb hblock
      | cons a t => simp
    omega

/-- `FabricTransport.programDevice`: `blockSz = 4096 - 32`, `blockCnt =
math.ceil(len(bitstreamData) / blockSz)` (exact ceiling division on
`Nat`); send ProgramDevice with the saveToFlash flag, total size, block
count and `bitstreamCrc = 0`, aborting with the device's code on a
nonzero response error code; run the block loop; send ProgramComplete,
aborting on a nonzero code; log `Completed sz / sz` and return `True`. -/
def programDevice (bitstreamData : List Nat) (saveToFlash : Bool)
    (errs : Nat → Nat) (compress : List Nat → List Nat) :
    List PDEvent × Except Nat Bool :=
  let blockSz := 4096 - 32
  let blockCnt := (bitstreamData.length + blockSz - 1) / blockSz
  let sz := bitstreamData.length
  let ev0 := PDEvent.cmdProgramDevice (if saveToFlash then 1 else 0) sz blockCnt 0
  if errs 0 ≠ 0 then ([ev0], .error (errs 0))
  else
    match programLoop bitstreamData sz errs compress 0 blockSz 0 1 with
    | (evs, .error c) => (ev0 :: evs, .error c)
    | (evs, .ok cmdIdx) =>
      if errs cmdIdx ≠ 0 then
        (ev0 :: (evs ++ [PDEvent.cmdProgramComplete]), .error (errs cmdIdx))
      else
        (ev0 :: (evs ++ [PDEvent.cmdProgramComplete,
            PDEvent.progress sz sz]), .ok true)


/-- The successive `≤ 4064`-byte slices of a bitstream, in source
order: the raw blocks the loop sends. -/
def chunks (l : List Nat) : List (List Nat) :=
  if l = [] then []
  else l.take 4064 :: chunks (l.drop 4064)
  termination_by l.length
  decreasing_by
    have h1 : 1 ≤ l.length := by
      cases l with
      | nil => simp_all
      | cons a t => simp
    simp [List.length_drop]
    omega

/-- The event trace the block loop produces on an error-free run:
chunk by chunk, the `Chunk i / sz` progress line then the ProgramBlock
command. -/
def loopTrace (sz : Nat) (compress : List Nat → List Nat) :
    Nat → Nat → List (List Nat) → List PDEvent
  | _, _, [] => []
  | i, blockId, b :: bs =>
    PDEvent.progress i sz ::
      PDEvent.cmdProgramBlock blockId (compressData compress b).length b.length
        ((b.foldl (fun a c => a + c) 0) &&& 0xff) (compressData compress b) b ::
      loopTrace sz compress (i + b.length) (blockId + 1) bs

theorem chunks_nil : chunks [] = [] := by
  rw [chunks]
  simp

theorem chunks_cons (l : List Nat) (h : l ≠ []) :
    chunks l = l.take 4064 :: chunks (l.drop 4064) := by
  rw [chunks]
  simp [h]

/-- The loop returns immediately once the offset has consumed the
whole bitstream, whatever the current block size. -/
theorem programLoop_exhausted (bitstreamData : List Nat) (sz : Nat)
    (errs : Nat → Nat) (compress : List Nat → List Nat)
    (i blockSz blockId cmdIdx : Nat) (h : bitstreamData.drop i = []) :
    programLoop bitstreamData sz errs compress i blockSz blockId cmdIdx
      = ([], .ok cmdIdx) := by
  rw [programLoop]
  simp [h]

/-- Closed form of the block loop on an error-free run entered with
the initial block size 4064: it emits `loopTrace` over the remaining
chunks and consumes one command index per chunk. -/
theorem programLoop_eq (bitstreamData : List Nat) (sz : Nat)
    (errs : Nat → Nat) (compress : List Nat → List Nat)
    (h0 : ∀ k, errs k = 0) :
    ∀ n i blockId cmdIdx, bitstreamData.length - i ≤ n →
      programLoop bitstreamData sz errs compress i 4064 blockId cmdIdx
        = (loopTrace sz compress i blockId (chunks (bitstreamData.drop i)),
           .ok (cmdIdx + (chunks (bitstreamData.drop i)).length)) := by
  intro n
  induction n with
  | zero =>
    intro i blockId cmdIdx hn
    have h : bitstreamData.drop i = [] := List.drop_eq_nil_of_le (by omega)
    rw [programLoop_exhausted _ _ _ _ _ _ _ _ h, h, chunks_nil]
    rfl
  | succ n ih =>
    intro i blockId cmdIdx hn
    by_cases hnil : bitstreamData.drop i = []
    · rw [programLoop_exhausted _ _ _ _ _ _ _ _ hnil, hnil, chunks_nil]
      rfl
    · have hi : i < bitstreamData.length := by
        by_contra h
        exact hnil (List.drop_eq_nil_of_le (by omega))
      have hblock : (bitstreamData.drop i).take 4064 ≠ [] := by
        intro h
        rcases List.take_eq_nil_iff.mp h with h | h
        · omega
        · exact hnil h
      rw [programLoop]
      rw [dif_neg hblock]
      rw [if_neg (show ¬ (errs cmdIdx ≠ 0) by simp [h0])]
      by_cases hfull : 4064 ≤ (List.drop i bitstreamData).length
      · rw [List.length_drop] at hfull
        have hlenB : (List.take 4064 (List.drop i bitstreamData)).length = 4064 := by
          simp [List.length_take, List.length_drop]
          omega
        have hdd : List.drop 4064 (List.drop i bitstreamData)
            = List.drop (i + 4064) bitstreamData := by
          rw [List.drop_drop]
        have hmeas : bitstreamData.length - (i + 4064) ≤ n := by omega
        rw [hlenB, ih (i + 4064) (blockId + 1) (cmdIdx + 1) hmeas]
        rw [chunks_cons _ hnil, hdd]
        simp only [loopTrace, hlenB]
        simp only [List.cons_append, List.nil_append, List.length_cons, Prod.mk.injEq]
        refine ⟨trivial, ?_⟩
        congr 1
        omega
      · rw [List.length_drop] at hfull
        have hlt : (List.drop i bitstreamData).length < 4064 := by
          rw [List.length_drop]
          omega
        have hBeq : List.take 4064 (List.drop i bitstreamData)
            = List.drop i bitstreamData := List.take_of_length_le (by omega)
        have hrest : List.drop
            (i + (List.take 4064 (List.drop i bitstreamData)).length) bitstreamData
            = [] := by
          rw [hBeq, List.length_drop]
          exact List.drop_eq_nil_of_le (by omega)
        rw [programLoop_exhausted _ _ _ _ _ _ _ _ hrest]
        rw [chunks_cons _ hnil]
        have hdrop2 : List.drop 4064 (List.drop i bitstreamData) = [] :=
          List.drop_eq_nil_of_le (by omega)
        rw [hdrop2, chunks_nil]
        simp only [loopTrace]
        simp


/-- Closed form of an error-free `programDevice` run: the ProgramDevice
command, the per-chunk progress/ProgramBlock pairs, ProgramComplete,
and the final `Completed sz / sz` line. -/
theorem programDevice_eq (bitstreamData : List Nat) (saveToFlash : Bool)
    (errs : Nat → Nat) (compress : List Nat → List Nat) (h0 : ∀ k, errs k = 0) :
    programDevice bitstreamData saveToFlash errs compress
      = (PDEvent.cmdProgramDevice (if saveToFlash then 1 else 0) bitstreamData.length
          ((bitstreamData.length + 4063) / 4064) 0
          :: (loopTrace bitstreamData.length compress 0 0 (chunks bitstreamData)
            ++ [PDEvent.cmdProgramComplete,
                PDEvent.progress bitstreamData.length bitstreamData.length]),
         .ok true) := by
  have hloop := programLoop_eq bitstreamData bitstreamData.length errs compress h0
      bitstreamData.length 0 0 1 (by omega)
  rw [List.drop_zero] at hloop
  unfold programDevice
  rw [if_neg (show ¬ (errs 0 ≠ 0) by simp [h0])]
  rw [show (4096 - 32 : Nat) = 4064 from rfl]
  rw [hloop]
  have hif : ¬ (errs (1 + (chunks bitstreamData).length) ≠ 0) := by simp [h0]
  simp only [hif, ite_false, if_neg hif]
  rw [show (bitstreamData.length + 4064 - 1) = (bitstreamData.length + 4063) from rfl]

/-- The `(blockId, raw block)` pairs of the ProgramBlock commands in an
event trace, in order. -/
def blockEvents (tr : List PDEvent) : List (Nat × List Nat) :=
  tr.filterMap fun e =>
    match e with
    | .cmdProgramBlock blockId _ _ _ _ raw => some (blockId, raw)
    | _ => none

theorem chunks_eq_nil_iff (l : List Nat) : chunks l = [] ↔ l = [] := by
  constructor
  · intro h
    by_contra hne
    rw [chunks_cons l hne] at h
    exact List.noConfusion h
  · intro h
    rw [h, chunks_nil]

theorem chunks_join (l : List Nat) : (chunks l).flatten = l := by
  have main : ∀ n (l : List Nat), l.length ≤ n → (chunks l).flatten = l := by
    intro n
    induction n with
    | zero =>
      intro l hl
      have : l = [] := List.eq_nil_of_length_eq_zero (by omega)
      rw [this, chunks_nil]
      rfl
    | succ n ih =>
      intro l hl
      by_cases hnil : l = []
      · rw [hnil, chunks_nil]
        rfl
      · have h1 : 1 ≤ l.length := by
          cases l with
          | nil => exact absurd rfl hnil
          | cons a t => simp
        rw [chunks_cons l hnil, List.flatten_cons,
          ih (l.drop 4064) (by simp [List.length_drop]; omega),
          List.take_append_drop]
  exact main l.length l (Nat.le_refl _)

theorem chunks_length (l : List Nat) :
    (chunks l).length = (l.length + 4063) / 4064 := by
  have main : ∀ n (l : List Nat), l.length ≤ n →
      (chunks l).length = (l.length + 4063) / 4064 := by
    intro n
    induction n with
    | zero =>
      intro l hl
      have : l = [] := List.eq_nil_of_length_eq_zero (by omega)
      rw [this, chunks_nil]
      rfl
    | succ n ih =>
      intro l hl
      by_cases hnil : l = []
      · rw [hnil, chunks_nil]
        rfl
      · have h1 : 1 ≤ l.length := by
          cases l with
          | nil => exact absurd rfl hnil
          | cons a t => simp
        rw [chunks_cons l hnil, List.length_cons,
          ih (l.drop 4064) (by simp [List.length_drop]; omega),
          List.length_drop]
        omega
  exact main l.length l (Nat.le_refl _)

theorem chunks_full (l : List Nat) :
    ∀ k, k + 1 < (chunks l).length → ((chunks l).getD k []).length = 4064 := by
  have main : ∀ n (l : List Nat), l.length ≤ n →
      ∀ k, k + 1 < (chunks l).length → ((chunks l).getD k []).length = 4064 := by
    intro n
    induction n with
    | zero =>
      intro l hl k hk
      have : l = [] := List.eq_nil_of_length_eq_zero (by omega)
      rw [this, chunks_nil] at hk
      simp at hk
    | succ n ih =>
      intro l hl k hk
      by_cases hnil : l = []
      · rw [hnil, chunks_nil] at hk
        simp at hk
      · have h1 : 1 ≤ l.length := by
          cases l with
          | nil => exact absurd rfl hnil
          | cons a t => simp
        rw [chunks_cons l hnil] at hk ⊢
        cases k with
        | zero =>
          have hrest : chunks (l.drop 4064) ≠ [] := by
            intro h
            rw [h] at hk
            simp at hk
          have hdr : l.drop 4064 ≠ [] := by
            intro h
            exact hrest ((chunks_eq_nil_iff _).mpr h)
          have hlen : 4064 < l.length := by
            by_contra h
            exact hdr (List.drop_eq_nil_of_le (by omega))
          simp [List.length_take]
          omega
        | succ k =>
          simp only [List.getD_cons_succ]
          apply ih (l.drop 4064) (by simp [List.length_drop]; omega)
          simp only [List.length_cons] at hk
          omega
  exact main l.length l (Nat.le_refl _)

theorem map_getD_range {α : Type} (l : List α) (d : α) :
    (List.range l.length).map (fun i => l.getD i d) = l := by
  induction l with
  | nil => rfl
  | cons a t ih =>
    rw [List.length_cons, List.range_succ_eq_map, List.map_cons, List.map_map]
    refine congrArg₂ (· :: ·) (by simp) ?_
    calc List.map ((fun i => (a :: t).getD i d) ∘ Nat.succ) (List.range t.length)
        = List.map (fun i => t.getD i d) (List.range t.length) := by
          apply List.map_congr_left
          intro i _
          simp
      _ = t := ih

theorem blockEvents_loopTrace (sz : Nat) (compress : List Nat → List Nat) :
    ∀ (bs : List (List Nat)) (i blockId : Nat),
      blockEvents (loopTrace sz compress i blockId bs)
        = (List.range bs.length).map (fun j => (blockId + j, bs.getD j [])) := by
  intro bs
  induction bs with
  | nil => intro i blockId; rfl
  | cons b t ih =>
    intro i blockId
    have ih' := ih (i + b.length) (blockId + 1)
    simp only [blockEvents] at ih' ⊢
    simp only [loopTrace, List.filterMap_cons]
    rw [ih']
    rw [List.length_cons, List.range_succ_eq_map, List.map_cons, List.map_map]
    refine congrArg₂ (· :: ·) (by simp) ?_
    apply List.map_congr_left
    intro j _
    simp only [Function.comp, List.getD_cons_succ]
    refine congrArg₂ Prod.mk (by omega) rfl


/-- C5 (confirmed): for every nonempty bitstream of size S and
error-free device, `programDevice` issues exactly `ceil(S/4064)`
ProgramBlock commands, their blockIds form `0, 1, ..., ceil(S/4064)-1`
in send order, every block except possibly the last carries exactly
4064 raw bytes, the concatenation of the raw blocks in id order equals
the original bitstream, and the preceding ProgramDevice command carries
`blockCount = ceil(S/4064)`. -/
theorem block_chunking (bitstreamData : List Nat) (saveToFlash : Bool)
    (errs : Nat → Nat) (compress : List Nat → List Nat)
    (h0 : ∀ k, errs k = 0) (hS : 0 < bitstreamData.length) :
    (blockEvents (programDevice bitstreamData saveToFlash errs compress).1).length
        = (bitstreamData.length + 4063) / 4064 ∧
      (blockEvents (programDevice bitstreamData saveToFlash errs compress).1).map
          Prod.fst = List.range ((bitstreamData.length + 4063) / 4064) ∧
      (∀ be ∈ (blockEvents
          (programDevice bitstreamData saveToFlash errs compress).1).dropLast,
        be.2.length = 4064) ∧
      ((blockEvents (programDevice bitstreamData saveToFlash errs compress).1).map
          Prod.snd).flatten = bitstreamData ∧
      (programDevice bitstreamData saveToFlash errs compress).1.head?
        = some (PDEvent.cmdProgramDevice (if saveToFlash then 1 else 0)
            bitstreamData.length ((bitstreamData.length + 4063) / 4064) 0) := by
  have htr : (programDevice bitstreamData saveToFlash errs compress).1
      = PDEvent.cmdProgramDevice (if saveToFlash then 1 else 0) bitstreamData.length
          ((bitstreamData.length + 4063) / 4064) 0
        :: (loopTrace bitstreamData.length compress 0 0 (chunks bitstreamData)
          ++ [PDEvent.cmdProgramComplete,
              PDEvent.progress bitstreamData.length bitstreamData.length]) := by
    rw [programDevice_eq _ _ _ _ h0]
  have hbe : blockEvents (programDevice bitstreamData saveToFlash errs compress).1
      = (List.range (chunks bitstreamData).length).map
          (fun j => (0 + j, (chunks bitstreamData).getD j [])) := by
    rw [htr]
    show blockEvents _ = _
    simp only [blockEvents, List.filterMap_cons, List.filterMap_append]
    rw [show List.filterMap _ (loopTrace bitstreamData.length compress 0 0
        (chunks bitstreamData)) = blockEvents (loopTrace bitstreamData.length compress
          0 0 (chunks bitstreamData)) from rfl]
    rw [blockEvents_loopTrace]
    simp
  have hn : (chunks bitstreamData).length = (bitstreamData.length + 4063) / 4064 :=
    chunks_length _
  have hn1 : 1 ≤ (chunks bitstreamData).length := by
    rcases Nat.eq_zero_or_pos (chunks bitstreamData).length with h | h
    · exact absurd ((chunks_eq_nil_iff _).mp (List.eq_nil_of_length_eq_zero h))
        (by intro h2; rw [h2] at hS; simp at hS)
    · exact h
  refine ⟨?_, ?_, ?_, ?_, ?_⟩
  · rw [hbe]
    simp [hn]
  · rw [hbe, ← hn, List.map_map]
    have : (Prod.fst ∘ fun j => ((0 + j : Nat), (chunks bitstreamData).getD j []))
        = fun j => j := by
      funext j
      simp
    rw [this]
    simp
  · intro be hbe2
    rw [hbe] at hbe2
    obtain ⟨m, hm⟩ := Nat.exists_eq_add_of_le hn1
    rw [hm] at hbe2
    rw [show 1 + m = m + 1 from by omega, List.range_succ, List.map_append,
      List.map_singleton, List.dropLast_concat] at hbe2
    obtain ⟨j, hj, hbeq⟩ := List.mem_map.mp hbe2
    rw [← hbeq]
    show ((chunks bitstreamData).getD j []).length = 4064
    apply chunks_full
    rw [List.mem_range] at hj
    omega
  · rw [hbe, List.map_map]
    have : (Prod.snd ∘ fun j => ((0 + j : Nat), (chunks bitstreamData).getD j []))
        = fun j => (chunks bitstreamData).getD j [] := by
      funext j
      rfl
    rw [this, map_getD_range, chunks_join]
  · rw [htr]
    rfl


/-- C5 (witness): the chunking theorem applied to the bitstream
`[1,2,3]` with an error-free device. -/
theorem block_chunking_witness :
    (∀ k : Nat, (fun _ : Nat => 0) k = 0) ∧ 0 < ([1,2,3] : List Nat).length ∧
      ((blockEvents (programDevice [1,2,3] false (fun _ => 0) (fun y => y)).1).length
          = 1 ∧
        (blockEvents (programDevice [1,2,3] false (fun _ => 0) (fun y => y)).1).map
            Prod.fst = List.range 1 ∧
        (∀ be ∈ (blockEvents
            (programDevice [1,2,3] false (fun _ => 0) (fun y => y)).1).dropLast,
          be.2.length = 4064) ∧
        ((blockEvents (programDevice [1,2,3] false (fun _ => 0) (fun y => y)).1).map
            Prod.snd).flatten = [1,2,3] ∧
        (programDevice [1,2,3] false (fun _ => 0) (fun y => y)).1.head?
          = some (PDEvent.cmdProgramDevice 0 3 1 0)) :=
  ⟨fun _ => rfl, by decide,
    block_chunking [1,2,3] false (fun _ => 0) (fun y => y) (fun _ => rfl) (by decide)⟩

/-- C8 (confirmed): when the response to the initial ProgramDevice
command carries a nonzero error code, `programDevice` aborts with an
error carrying exactly that device code, and the whole event trace is
the single ProgramDevice command — in particular no ProgramBlock
command is sent before the abort. -/
theorem program_error_aborts (bitstreamData : List Nat) (saveToFlash : Bool)
    (errs : Nat → Nat) (compress : List Nat → List Nat) (herr : errs 0 ≠ 0) :
    programDevice bitstreamData saveToFlash errs compress
        = ([PDEvent.cmdProgramDevice (if saveToFlash then 1 else 0)
              bitstreamData.length ((bitstreamData.length + 4063) / 4064) 0],
           .error (errs 0)) ∧
      blockEvents (programDevice bitstreamData saveToFlash errs compress).1 = [] := by
  have h1 : programDevice bitstreamData saveToFlash errs compress
      = ([PDEvent.cmdProgramDevice (if saveToFlash then 1 else 0)
            bitstreamData.length ((bitstreamData.length + 4063) / 4064) 0],
         .error (errs 0)) := by
    unfold programDevice
    rw [if_pos herr]
    rfl
  refine ⟨h1, ?_⟩
  rw [h1]
  rfl

/-- C8 (witness): the abort theorem applied to a device that answers
every command with error code 5. -/
theorem program_error_aborts_witness :
    ((fun _ : Nat => 5) 0 ≠ 0) ∧
      (programDevice [1,2,3] false (fun _ => 5) (fun y => y)
          = ([PDEvent.cmdProgramDevice 0 3 1 0], .error 5) ∧
        blockEvents (programDevice [1,2,3] false (fun _ => 5) (fun y => y)).1 = []) :=
  ⟨by decide, program_error_aborts [1,2,3] false (fun _ => 5) (fun y => y) (by decide)⟩

/-- C10 (confirmed): for an empty bitstream, `programDevice` sends
ProgramDevice with `totalSize = 0` and `blockCount = 0`, then
ProgramComplete, with zero ProgramBlock commands in between, and
returns success when both responses carry error code 0. -/
theorem program_empty_bitstream (saveToFlash : Bool) (errs : Nat → Nat)
    (compress : List Nat → List Nat) (h0 : errs 0 = 0) (h1 : errs 1 = 0) :
    programDevice [] saveToFlash errs compress
      = ([PDEvent.cmdProgramDevice (if saveToFlash then 1 else 0) 0 0 0,
          PDEvent.cmdProgramComplete, PDEvent.progress 0 0], .ok true) := by
  unfold programDevice
  rw [if_neg (by simp [h0])]
  rw [programLoop_exhausted _ _ _ _ 0 (4096 - 32) 0 1 rfl]
  simp [h1]

/-- C10 (witness): the empty-bitstream theorem at an error-free device
with `saveToFlash = true`. -/
theorem program_empty_bitstream_witness :
    ((fun _ : Nat => 0) 0 = 0) ∧ ((fun _ : Nat => 0) 1 = 0) ∧
      programDevice [] true (fun _ => 0) (fun y => y)
        = ([PDEvent.cmdProgramDevice 1 0 0 0, PDEvent.cmdProgramComplete,
            PDEvent.progress 0 0], .ok true) :=
  ⟨rfl, rfl, program_empty_bitstream true (fun _ => 0) (fun y => y) rfl rfl⟩


theorem loopTrace_append (sz : Nat) (compress : List Nat → List Nat) :
    ∀ (as bs : List (List Nat)) (i blockId : Nat),
      loopTrace sz compress i blockId (as ++ bs)
        = loopTrace sz compress i blockId as
          ++ loopTrace sz compress (i + (as.map List.length).sum)
              (blockId + as.length) bs := by
  intro as
  induction as with
  | nil =>
    intro bs i blockId
    simp [loopTrace]
  | cons a t ih =>
    intro bs i blockId
    simp only [List.cons_append, loopTrace, List.map_cons, List.sum_cons,
      List.length_cons, List.append_eq]
    rw [ih]
    rw [show i + a.length + (t.map List.length).sum
        = i + (a.length + (t.map List.length).sum) from by omega]
    rw [show blockId + 1 + t.length = blockId + (t.length + 1) from by omega]

theorem chunks_take_sum (l : List Nat) :
    ∀ k, (((chunks l).take k).map List.length).sum = min (4064 * k) l.length := by
  have main : ∀ n (l : List Nat), l.length ≤ n → ∀ k,
      (((chunks l).take k).map List.length).sum = min (4064 * k) l.length := by
    intro n
    induction n with
    | zero =>
      intro l hl k
      have : l = [] := List.eq_nil_of_length_eq_zero (by omega)
      rw [this, chunks_nil]
      simp
    | succ n ih =>
      intro l hl k
      by_cases hnil : l = []
      · rw [hnil, chunks_nil]
        simp
      · have h1 : 1 ≤ l.length := by
          cases l with
          | nil => exact absurd rfl hnil
          | cons a t => simp
        rw [chunks_cons l hnil]
        cases k with
        | zero => simp
        | succ k =>
          rw [List.take_succ_cons, List.map_cons, List.sum_cons,
            ih (l.drop 4064) (by simp [List.length_drop]; omega) k,
            List.length_take, List.length_drop]
          omega
  exact main l.length l (Nat.le_refl _)

theorem take_succ_getD (l : List (List Nat)) (k : Nat) (hk : k < l.length) :
    l.take (k + 1) = l.take k ++ [l.getD k []] := by
  rw [List.take_succ, List.getElem?_eq_getElem hk]
  simp [List.getD_eq_getElem?_getD, List.getElem?_eq_getElem hk]

/-- C9 (confirmed): on an error-free upload, after each ProgramBlock
command's dispatch the event sequence contains a progress observation
whose byte count includes that block (`min((k+1)*4064, S)` of `S` total
— the next block's `Chunk` line, or for the last block the final
`Completed` line), and the trace ends with ProgramComplete followed by
the final `S / S` observation. -/
theorem progress_after_blocks (bitstreamData : List Nat) (saveToFlash : Bool)
    (errs : Nat → Nat) (compress : List Nat → List Nat) (h0 : ∀ k, errs k = 0) :
    (∀ k, k < (bitstreamData.length + 4063) / 4064 →
      ∃ csz bsz crc cb raw l1 l2,
        (programDevice bitstreamData saveToFlash errs compress).1
            = l1 ++ PDEvent.cmdProgramBlock k csz bsz crc cb raw :: l2 ∧
          PDEvent.progress (min ((k + 1) * 4064) bitstreamData.length)
              bitstreamData.length ∈ l2) ∧
      ∃ l3, (programDevice bitstreamData saveToFlash errs compress).1
          = l3 ++ [PDEvent.cmdProgramComplete,
              PDEvent.progress bitstreamData.length bitstreamData.length] := by
  have htr : (programDevice bitstreamData saveToFlash errs compress).1
      = PDEvent.cmdProgramDevice (if saveToFlash then 1 else 0) bitstreamData.length
          ((bitstreamData.length + 4063) / 4064) 0
        :: (loopTrace bitstreamData.length compress 0 0 (chunks bitstreamData)
          ++ [PDEvent.cmdProgramComplete,
              PDEvent.progress bitstreamData.length bitstreamData.length]) := by
    rw [programDevice_eq _ _ _ _ h0]
  have hn : (chunks bitstreamData).length = (bitstreamData.length + 4063) / 4064 :=
    chunks_length _
  constructor
  · intro k hk
    have hk' : k < (chunks bitstreamData).length := by omega
    have hsplit : chunks bitstreamData
        = (chunks bitstreamData).take k
          ++ ((chunks bitstreamData).getD k []
              :: (chunks bitstreamData).drop (k + 1)) := by
      conv_lhs => rw [← List.take_append_drop k (chunks bitstreamData)]
      rw [List.drop_eq_getElem_cons hk']
      congr 1
      rw [List.getD_eq_getElem?_getD, List.getElem?_eq_getElem hk']
      rfl
    have hlentk : ((chunks bitstreamData).take k).length = k := by
      rw [List.length_take]
      omega
    refine ⟨(compressData compress ((chunks bitstreamData).getD k [])).length,
      ((chunks bitstreamData).getD k []).length,
      (((chunks bitstreamData).getD k []).foldl (fun a c => a + c) 0) &&& 0xff,
      compressData compress ((chunks bitstreamData).getD k []),
      (chunks bitstreamData).getD k [],
      PDEvent.cmdProgramDevice (if saveToFlash then 1 else 0) bitstreamData.length
          ((bitstreamData.length + 4063) / 4064) 0
        :: (loopTrace bitstreamData.length compress 0 0
              ((chunks bitstreamData).take k)
          ++ [PDEvent.progress (0 + (((chunks bitstreamData).take k).map
                List.length).sum) bitstreamData.length]),
      loopTrace bitstreamData.length compress
          (0 + (((chunks bitstreamData).take k).map List.length).sum
            + ((chunks bitstreamData).getD k []).length)
          (0 + k + 1) ((chunks bitstreamData).drop (k + 1))
        ++ [PDEvent.cmdProgramComplete,
            PDEvent.progress bitstreamData.length bitstreamData.length],
      ?_, ?_⟩
    · rw [htr]
      conv_lhs => rw [hsplit]
      rw [loopTrace_append]
      rw [hlentk]
      simp only [loopTrace]
      simp [List.cons_append, List.append_assoc]
    · have hsum1 : 0 + (((chunks bitstreamData).take k).map List.length).sum
          + ((chunks bitstreamData).getD k []).length
          = min ((k + 1) * 4064) bitstreamData.length := by
        have h1 := chunks_take_sum bitstreamData (k + 1)
        rw [take_succ_getD _ _ hk', List.map_append, List.sum_append,
          List.map_singleton, List.sum_singleton] at h1
        rw [show (k + 1) * 4064 = 4064 * (k + 1) from by omega]
        omega
      by_cases hrest : (chunks bitstreamData).drop (k + 1) = []
      · rw [hrest]
        have hkn : k + 1 = (chunks bitstreamData).length := by
          have := List.drop_eq_nil_iff.mp hrest
          omega
        have hmin : min ((k + 1) * 4064) bitstreamData.length
            = bitstreamData.length := by
          rw [hkn, hn]
          have : bitstreamData.length ≤ ((bitstreamData.length + 4063) / 4064) * 4064 := by
            omega
          omega
        rw [hmin]
        simp [loopTrace]
      · obtain ⟨c, rest2, hc⟩ := List.exists_cons_of_ne_nil hrest
        rw [hc]
        simp only [loopTrace]
        rw [hsum1]
        simp
  · exact ⟨PDEvent.cmdProgramDevice (if saveToFlash then 1 else 0)
        bitstreamData.length ((bitstreamData.length + 4063) / 4064) 0
      :: loopTrace bitstreamData.length compress 0 0 (chunks bitstreamData),
      by rw [htr]; simp [List.cons_append]⟩


/-- C9 (witness): the progress-ordering theorem applied to the
bitstream `[1,2,3]` with an error-free device. -/
theorem progress_after_blocks_witness :
    (∀ k : Nat, (fun _ : Nat => 0) k = 0) ∧
      ((∀ k, k < 1 →
        ∃ csz bsz crc cb raw l1 l2,
          (programDevice [1,2,3] false (fun _ => 0) (fun y => y)).1
              = l1 ++ PDEvent.cmdProgramBlock k csz bsz crc cb raw :: l2 ∧
            PDEvent.progress (min ((k + 1) * 4064) 3) 3 ∈ l2) ∧
        ∃ l3, (programDevice [1,2,3] false (fun _ => 0) (fun y => y)).1
            = l3 ++ [PDEvent.cmdProgramComplete, PDEvent.progress 3 3]) :=
  ⟨fun _ => rfl,
    progress_after_blocks [1,2,3] false (fun _ => 0) (fun y => y) (fun _ => rfl)⟩


/-! ## Discovery service (`FabricService.listDevices`) -/

/-- A Python reference to a `FabricDeviceInfo`: the object's identity
(allocation number — every successful query allocates a fresh object)
paired with its field values.  `FabricDeviceInfo` defines no `__eq__`,
so Python's `in` falls back to reference comparison: only the tag is
compared. -/
abbrev TaggedInfo := Nat × FabricDeviceInfo

/-- The mutable state of one `listDevices` call: the allocation
counter, the collected `devices` list and the service's uri-keyed
`deviceCache`. -/
structure ScanState where
  nextId : Nat
  devices : List TaggedInfo
  cache : List (String × TaggedInfo)
deriving DecidableEq, Repr

/-- The environment a scan runs against: the enumerated serial port
identifiers (`comports()`), the deny-list `IGNORE_PORTS`, the
platform's preferred glob list (`PREFERRED_PROBE_PORTS[platform.system()]`,
`none` when the platform has no entry), the glob matcher
(`fnmatch.fnmatch(name, pattern)`, Python stdlib, taken as a
parameter), and for each uri the outcome of `queryDevice` there:
`.error` a raised exception, `.ok none` no device, `.ok (some fields)`
the `(status, fpgaDeviceId, uid)` of the device found (the info's `uri`
field is the probed uri itself). -/
structure ProbeEnv where
  ports : List String
  ignorePorts : List String
  prefGlobs : Option (List String)
  fnmatch : String → String → Bool
  probe : String → Except String (Option (DeviceStatus × Nat × String))

/-- Python dict assignment `cache[uri] = obj`. -/
def updateCache : List (String × TaggedInfo) → String → TaggedInfo →
    List (String × TaggedInfo)
  | [], uri, obj => [(uri, obj)]
  | (u, o) :: rest, uri, obj =>
    if u = uri then (u, obj) :: rest else (u, o) :: updateCache rest uri obj

/-- `addDeviceCache`: store the info object under its uri (skipped for
a falsy uri). -/
def addDeviceCache (st : ScanState) (obj : TaggedInfo) : ScanState :=
  if obj.2.uri = "" then st
  else { st with cache := updateCache st.cache obj.2.uri obj }

/-- One probe inside `listDevices`' scanning loops: query the uri; on a
device, allocate the info object, append it to `devices` unless the
very same object is already present (`if not deviceInfo in devices` —
reference equality, compared via the tag, always false for a freshly
allocated object), cache it, and signal the early return once
`returnOnMinCnt` devices are collected.  `caught` says whether the
surrounding loop swallows exceptions (pass 2's `try/except: pass`) or
lets them propagate (pass 1 has no handler). -/
def probeStep (env : ProbeEnv) (caught : Bool) (minCnt : Option Nat)
    (st : ScanState) (uri : String) : Except String (ScanState × Bool) :=
  match env.probe uri with
  | .error e => if caught then .ok (st, false) else .error e
  | .ok none => .ok (st, false)
  | .ok (some (status, fpgaId, uid)) =>
    let obj : TaggedInfo := (st.nextId,
      { status := status, fpgaDeviceId := fpgaId, uri := uri, uid := uid })
    let devices := if st.devices.any (fun dv => dv.1 == obj.1) then st.devices
      else st.devices ++ [obj]
    let st1 := addDeviceCache
      { st with nextId := st.nextId + 1, devices := devices } obj
    match minCnt with
    | some m => .ok (st1, m ≤ devices.length)
    | none => .ok (st1, false)

/-- One scanning loop over a list of candidate uris, stopping early
when a probe signals the `returnOnMinCnt` return. -/
def runPass (env : ProbeEnv) (caught : Bool) (minCnt : Option Nat) :
    List String → ScanState → Except String (ScanState × Bool)
  | [], st => .ok (st, false)
  | uri :: rest, st =>
    match probeStep env caught minCnt st uri with
    | .error e => .error e
    | .ok (st1, true) => .ok (st1, true)
    | .ok (st1, false) => runPass env caught minCnt rest st1

/-- The candidate uris: every enumerated port not on the deny-list,
as `usbserial://<port>`. -/
def deviceUris (env : ProbeEnv) : List String :=
  (env.ports.filter (fun p => !(env.ignorePorts.contains p))).map
    (fun p => "usbserial://" ++ p)

/-- `FabricService.listDevices` (usbserial candidates): pass 1 probes,
with the fast timeout and without any exception handler, every
candidate uri matching a preferred glob; pass 2 probes every candidate
uri twice (fast then normal timeout tier), swallowing any
per-candidate exception; each successful probe appends to `devices`
(subject to the reference-equality membership test) and caches; the
`returnOnMinCnt` early return applies in every loop.  Returns the
collected device objects and the final state (whose `cache` is the
service's `deviceCache`). -/
def listDevices (env : ProbeEnv) (returnOnMinCnt : Option Nat) :
    Except String (List TaggedInfo × ScanState) :=
  let uris := deviceUris env
  let st0 : ScanState := ⟨0, [], []⟩
  let pass1 : Except String (ScanState × Bool) :=
    match env.prefGlobs with
    | some prefList =>
      runPass env false returnOnMinCnt
        (uris.filter (fun uri => prefList.any (fun pat =>
          env.fnmatch uri ("usbserial://" ++ pat)))) st0
    | none => .ok (st0, false)
  match pass1 with
  | .error e => .error e
  | .ok (st1, true) => .ok (st1.devices, st1)
  | .ok (st1, false) =>
    match runPass env true returnOnMinCnt uris st1 with
    | .error e => .error e
    | .ok (st2, true) => .ok (st2.devices, st2)
    | .ok (st2, false) =>
      match runPass env true returnOnMinCnt uris st2 with
      | .error e => .error e
      | .ok (st3, _) => .ok (st3.devices, st3)

/-- A scan environment with a single healthy endpoint whose uri also
matches the platform's preferred glob list. -/
def dupEnv : ProbeEnv :=
  { ports := ["/dev/ttyACM0"]
    ignorePorts := ["COM1"]
    prefGlobs := some ["/dev/ttyACM*"]
    fnmatch := fun _ _ => true
    probe := fun _ => .ok (some (DeviceStatus.StatusExistsAndValid, 0x1234,
      "e660c0d1c75a8934")) }

/-- The `FabricDeviceInfo` value every probe of `dupEnv`'s endpoint
produces. -/
def dupInfo : FabricDeviceInfo :=
  { status := DeviceStatus.StatusExistsAndValid
    fpgaDeviceId := 0x1234
    uri := "usbserial:///dev/ttyACM0"
    uid := "e660c0d1c75a8934" }

/-- C4 (code bug): against one unchanged healthy endpoint that matches
the preferred glob, `listDevices` returns the same device THREE times
(once from the preferred pass, once per exhaustive tier): the dedup
check `if not deviceInfo in devices` compares by object identity —
`FabricDeviceInfo` defines no `__eq__` — so the fresh object of each
probe is always appended, and only the last object is in the cache. -/
theorem listDevices_duplicate_devices :
    listDevices dupEnv none
        = .ok ([(0, dupInfo), (1, dupInfo), (2, dupInfo)],
            ⟨3, [(0, dupInfo), (1, dupInfo), (2, dupInfo)],
             [("usbserial:///dev/ttyACM0", (2, dupInfo))]⟩) ∧
      (([(0, dupInfo), (1, dupInfo), (2, dupInfo)] : List TaggedInfo).map
          Prod.snd).count dupInfo = 3 :=
  ⟨rfl, by decide⟩

end PicoFabric
